import Mathlib

/-!
Verification development for the misinformation-detection pipeline.

Text is modelled as `List Char`; Python character classes (`\w`, `\s`, the
URL character class) are modelled at ASCII granularity.  Numeric scores are
modelled as `ℚ` (all score arithmetic in the source stays well inside the
range where binary floating point is exact for the comparisons made).
External collaborators (embedding model, vector index, sentiment model,
database) are modelled as explicit outcome parameters: `failure` stands for
the Python call raising, `success v` for it returning `v`.
-/

namespace Misinfo

/-- Whitespace characters matched by the regex class `\s` (ASCII fragment:
space, tab, newline, carriage return, vertical tab, form feed). -/
def isSpaceCh (c : Char) : Bool :=
  c == ' ' || c == '\t' || c == '\n' || c == '\r' || c == '\x0b' || c == '\x0c'

/-- Word characters matched by the regex class `\w` (ASCII fragment:
letters, digits, underscore). -/
def isWordCh (c : Char) : Bool :=
  c.isAlpha || c.isDigit || c == '_'

/-- Lowercasing of a single character, as Python `str.lower` acts on the
ASCII letters `A`-`Z`. -/
def lowerChar (c : Char) : Char :=
  if 65 ≤ c.toNat ∧ c.toNat ≤ 90 then Char.ofNat (c.toNat + 32) else c

/-- `re.sub(r'\s+', ' ', text)`: every maximal run of whitespace becomes a
single space. -/
def collapseWs : List Char → List Char
  | [] => []
  | [c] => if isSpaceCh c then [' '] else [c]
  | c :: d :: cs =>
    if isSpaceCh c && isSpaceCh d then collapseWs (d :: cs)
    else (if isSpaceCh c then ' ' else c) :: collapseWs (d :: cs)

/-- Remove trailing whitespace (the right half of Python `str.strip`). -/
def dropTrailingSpaces : List Char → List Char
  | [] => []
  | c :: cs =>
    match dropTrailingSpaces cs with
    | [] => if isSpaceCh c then [] else [c]
    | r => c :: r

/-- Python `str.strip()`: drop leading and trailing whitespace. -/
def stripChars (l : List Char) : List Char :=
  dropTrailingSpaces (l.dropWhile isSpaceCh)

/-- Markup removal behind `BeautifulSoup(text).get_text()`: drop `<...>` tag
spans.  The flag records whether the scanner is inside a tag. -/
def stripTagsAux : Bool → List Char → List Char
  | _, [] => []
  | true, c :: cs => if c == '>' then stripTagsAux false cs else stripTagsAux true cs
  | false, c :: cs => if c == '<' then stripTagsAux true cs else c :: stripTagsAux false cs

/-- Entity decoding behind `BeautifulSoup(text).get_text()`: decode the
common named HTML entities. -/
def decodeEntities : List Char → List Char
  | [] => []
  | '&' :: 'a' :: 'm' :: 'p' :: ';' :: cs => '&' :: decodeEntities cs
  | '&' :: 'l' :: 't' :: ';' :: cs => '<' :: decodeEntities cs
  | '&' :: 'g' :: 't' :: ';' :: cs => '>' :: decodeEntities cs
  | '&' :: 'q' :: 'u' :: 'o' :: 't' :: ';' :: cs => '"' :: decodeEntities cs
  | '&' :: 'n' :: 'b' :: 's' :: 'p' :: ';' :: cs => ' ' :: decodeEntities cs
  | c :: cs => c :: decodeEntities cs

/-- `clean_html` from `text_processor_simple.py`: strip markup, then
collapse whitespace and strip the ends.  Empty input short-circuits. -/
def clean_html (l : List Char) : List Char :=
  if l = [] then []
  else stripChars (collapseWs (decodeEntities (stripTagsAux false l)))

/-- Characters matched by the URL-body character class of the regex
`http[s]?://(?:[a-zA-Z]|[0-9]|[$-_@.&+]|[!*\\(\\),]|(?:%[0-9a-fA-F][0-9a-fA-F]))+`
(the `%hh` alternative is subsumed: `%` already lies in the `$-_` range). -/
def isUrlCh (c : Char) : Bool :=
  c.isAlpha || c.isDigit || (decide (36 ≤ c.toNat) && decide (c.toNat ≤ 95)) ||
    c == '!' || c == '*' || c == '\\' || c == '(' || c == ')' || c == ','

/-- Match `pat` as a literal prefix of `l`; on success return the remainder. -/
def dropLit : List Char → List Char → Option (List Char)
  | [], l => some l
  | _ :: _, [] => none
  | p :: ps, c :: cs => if p == c then dropLit ps cs else none

/-- One attempted match of the URL regex at the head of `l`: the scheme
(`https://` tried greedily before `http://`, matching `http[s]?://`)
followed by a non-empty maximal run of URL-body characters.  On success
return the remainder after the match. -/
def urlMatch (l : List Char) : Option (List Char) :=
  ((dropLit ("https://".toList) l).orElse (fun _ => dropLit ("http://".toList) l)).bind
    (fun rest =>
      if (rest.takeWhile isUrlCh) = [] then none
      else some (rest.dropWhile isUrlCh))

/-- Left-to-right scan of `re.sub(urlRegex, '', text)`.  Each step either
removes a URL match (consuming at least the 7 scheme characters plus one
body character) or keeps one character, so fuel equal to the input length
never runs out. -/
def removeUrlsAux : Nat → List Char → List Char
  | 0, l => l
  | _ + 1, [] => []
  | f + 1, c :: cs =>
    match urlMatch (c :: cs) with
    | some rest => removeUrlsAux f rest
    | none => c :: removeUrlsAux f cs

/-- `re.sub(r'http[s]?://(...)+', '', text)`. -/
def removeUrls (l : List Char) : List Char := removeUrlsAux l.length l

/-- Does the list contain `'@'` at a position that is not its last one? -/
def hasAtNotLast : List Char → Bool
  | [] => false
  | [_] => false
  | c :: d :: cs => c == '@' || hasAtNotLast (d :: cs)

/-- Whether `re.sub(r'\S+@\S+', '', text)` deletes a maximal non-space run:
the leftmost-greedy match exists exactly when the run has an `'@'` with at
least one character before it and one after it inside the run, and the
greedy `\S+` on both sides then swallows the whole run. -/
def isEmailTok (tok : List Char) : Bool :=
  match tok with
  | [] => false
  | _ :: rest => hasAtNotLast rest

/-- Left-to-right scan of `re.sub(r'\S+@\S+', '', text)`: whitespace is
kept, and each maximal non-space run is deleted when it matches (see
`isEmailTok`).  Each step consumes at least one character, so fuel equal to
the input length never runs out. -/
def removeEmailsAux : Nat → List Char → List Char
  | 0, l => l
  | _ + 1, [] => []
  | f + 1, c :: cs =>
    if isSpaceCh c then c :: removeEmailsAux f cs
    else
      let tok := (c :: cs).takeWhile (fun d => !isSpaceCh d)
      let rest := (c :: cs).dropWhile (fun d => !isSpaceCh d)
      (if isEmailTok tok then [] else tok) ++ removeEmailsAux f rest

/-- `re.sub(r'\S+@\S+', '', text)`. -/
def removeEmails (l : List Char) : List Char := removeEmailsAux l.length l

/-- Punctuation whitelist of `clean_text`: `[.!?,;:]`. -/
def isKeptPunct (c : Char) : Bool :=
  c == '.' || c == '!' || c == '?' || c == ',' || c == ';' || c == ':'

/-- `re.sub(r'[^\w\s\.\!\?\,\;\:]', ' ', text)` acting on one character. -/
def punctToSpace (c : Char) : Char :=
  if isWordCh c || isSpaceCh c || isKeptPunct c then c else ' '

/-- Punctuation whitelist of `preprocess_for_embedding`: additionally keeps
hyphen and apostrophe. -/
def isKeptPunctEmb (c : Char) : Bool :=
  isKeptPunct c || c == '-' || c == '\''

/-- `re.sub(r'[^\w\s\.\!\?\,\;\:\-\']', ' ', text)` acting on one character. -/
def punctToSpaceEmb (c : Char) : Char :=
  if isWordCh c || isSpaceCh c || isKeptPunctEmb c then c else ' '

/-- `clean_text` from `text_processor_simple.py`: strip markup, lowercase,
remove URLs and e-mail addresses, replace non-whitelisted punctuation by a
space, collapse whitespace, strip the ends. -/
def clean_text (l : List Char) : List Char :=
  if l = [] then []
  else
    let t1 := clean_html l
    let t2 := t1.map lowerChar
    let t3 := removeUrls t2
    let t4 := removeEmails t3
    let t5 := t4.map punctToSpace
    stripChars (collapseWs t5)

/-- Split a list into its maximal runs of characters satisfying `p`,
dropping the separators (the runs appear in input order). -/
def splitRuns (p : Char → Bool) (l : List Char) : List (List Char) :=
  let st := l.foldr
    (fun c acc =>
      if p c then (c :: acc.1, acc.2)
      else (([] : List Char), if acc.1 = [] then acc.2 else acc.1 :: acc.2))
    (([] : List Char), ([] : List (List Char)))
  if st.1 = [] then st.2 else st.1 :: st.2

/-- Sentence-terminal punctuation used by `re.split(r'[.!?]+', text)`. -/
def isSentEnd (c : Char) : Bool := c == '.' || c == '!' || c == '?'

/-- `extract_sentences`: split on runs of sentence-terminal punctuation,
strip each fragment, keep the ones longer than 10 characters.  (The empty
fragments `re.split` produces at the ends are removed by the same filter,
so splitting into maximal non-terminator runs is equivalent.) -/
def extract_sentences (l : List Char) : List (List Char) :=
  ((splitRuns (fun c => !isSentEnd c) l).map stripChars).filter
    (fun s => 10 < s.length)

/-- The stopword list of `TextProcessor.__init__`. -/
def stopWords : List (List Char) :=
  (["i", "me", "my", "myself", "we", "our", "ours", "ourselves", "you",
    "your", "yours", "yourself", "yourselves", "he", "him", "his", "himself",
    "she", "her", "hers", "herself", "it", "its", "itself", "they", "them",
    "their", "theirs", "themselves", "what", "which", "who", "whom", "this",
    "that", "these", "those", "am", "is", "are", "was", "were", "be", "been",
    "being", "have", "has", "had", "having", "do", "does", "did", "doing",
    "a", "an", "the", "and", "but", "if", "or", "because", "as", "until",
    "while", "of", "at", "by", "for", "with", "through", "during", "before",
    "after", "above", "below", "up", "down", "in", "out", "on", "off", "over",
    "under", "again", "further", "then", "once"]).map String.toList

/-- `tokenize`: `re.findall(r'\w+', text.lower())`, optional stopword
removal, then drop tokens of length at most 2. -/
def tokenize (l : List Char) (removeStop : Bool) : List (List Char) :=
  let toks := splitRuns isWordCh (l.map lowerChar)
  let toks := if removeStop then toks.filter (fun t => !stopWords.contains t) else toks
  toks.filter (fun t => 2 < t.length)

/-- First occurrences of the elements of `l`, in order (the iteration order
of a Python `Counter` built from `l`). -/
def firstOccur (l : List (List Char)) : List (List Char) :=
  l.foldl (fun acc t => if acc.contains t then acc else acc ++ [t]) []

/-- Number of occurrences of token `t` in `l`. -/
def countTok (l : List (List Char)) (t : List Char) : Nat :=
  (l.filter (fun x => x == t)).length

/-- Stable insertion for a descending sort by `key`: `x` is placed before
the first already-sorted element whose key does not exceed `key x`, so
earlier input elements stay before later ones on ties. -/
def insertByDesc {α β : Type} [LinearOrder β] (key : α → β) (x : α) :
    List α → List α
  | [] => [x]
  | y :: ys => if key y ≤ key x then x :: y :: ys else y :: insertByDesc key x ys

/-- Stable descending sort by `key` (the semantics of Python
`list.sort(key=key, reverse=True)` / `Counter.most_common`). -/
def sortByDesc {α β : Type} [LinearOrder β] (key : α → β) (l : List α) : List α :=
  l.foldr (insertByDesc key) []

/-- `Counter(l).most_common(k)` keys: distinct tokens in first-occurrence
order, stably sorted by count descending, truncated to `k`. -/
def most_common (l : List (List Char)) (k : Nat) : List (List Char) :=
  (sortByDesc (countTok l) (firstOccur l)).take k

/-- `extract_keywords`: clean, tokenize without stopwords, and take the `k`
most frequent tokens. -/
def extract_keywords (l : List Char) (maxKeywords : Nat) : List (List Char) :=
  if l = [] then []
  else most_common (tokenize (clean_text l) true) maxKeywords

/-- Join fragments with single spaces (`' '.join(...)`). -/
def joinSpace : List (List Char) → List Char
  | [] => []
  | [s] => s
  | s :: rest => s ++ ' ' :: joinSpace rest

/-- `preprocess_for_embedding`: like `clean_text` but without lowercasing,
with hyphen and apostrophe kept, and trimmed to the first three sentences
when the cleaned text exceeds 1000 characters. -/
def preprocess_for_embedding (l : List Char) : List Char :=
  if l = [] then []
  else
    let t1 := clean_html l
    let t2 := removeUrls t1
    let t3 := removeEmails t2
    let t4 := t3.map punctToSpaceEmb
    let t5 := collapseWs t4
    let t6 := if 1000 < t5.length then joinSpace ((extract_sentences t5).take 3) else t5
    stripChars t6

/-- Is there a run of at least three consecutive ASCII uppercase letters
(`re.search(r'[A-Z]{3,}', text)`)? -/
def hasCapsRun : List Char → Bool
  | a :: b :: c :: rest => (a.isUpper && b.isUpper && c.isUpper) || hasCapsRun (b :: c :: rest)
  | _ => false

/-- The fields of `extract_claim_features` that the heuristic classifier
reads (`sentences`, `word_count`, `has_caps`); the remaining dictionary
entries are never consumed and are omitted from the model. -/
structure ClaimFeatures where
  sentences : List (List Char)
  word_count : Nat
  has_caps : Bool

/-- `extract_claim_features`, restricted to the fields read downstream. -/
def extract_claim_features (l : List Char) : ClaimFeatures :=
  { sentences := extract_sentences l
    word_count := (tokenize l false).length
    has_caps := hasCapsRun l }

/-- Does any word of `ws` occur as a substring (`word in text` in Python)? -/
def startsWithCh : List Char → List Char → Bool
  | [], _ => true
  | _ :: _, [] => false
  | p :: ps, c :: cs => p == c && startsWithCh ps cs

/-- Substring containment, `pat in l` in Python. -/
def containsSub (pat : List Char) : List Char → Bool
  | [] => startsWithCh pat []
  | c :: cs => startsWithCh pat (c :: cs) || containsSub pat cs

/-- `any(word in text for word in ws)`. -/
def anyIn (ws : List (List Char)) (text : List Char) : Bool :=
  ws.any (fun w => containsSub w text)

/-- Word lists of `_analyze_claim_heuristics`. -/
def scientific_words : List (List Char) :=
  (["study", "research", "clinical trial", "scientific", "evidence", "data",
    "according to", "published", "peer-reviewed", "journal"]).map String.toList

/-- Authoritative-source word list of `_analyze_claim_heuristics`. -/
def authority_words : List (List Char) :=
  (["cdc", "who", "fda", "nasa", "government", "official", "university",
    "medical center", "hospital", "institute"]).map String.toList

/-- Uncertainty word list of `_analyze_claim_heuristics`. -/
def uncertainty_words : List (List Char) :=
  (["maybe", "possibly", "might", "could", "allegedly", "reportedly",
    "supposedly", "rumor", "unconfirmed"]).map String.toList

/-- Absolute-statement word list of `_analyze_claim_heuristics`. -/
def absolute_words : List (List Char) :=
  (["always", "never", "all", "every", "none", "completely", "totally",
    "absolutely", "definitely", "guaranteed"]).map String.toList

/-- Sensational word list of `_analyze_claim_heuristics`. -/
def sensational_words : List (List Char) :=
  (["shocking", "unbelievable", "amazing", "incredible", "secret", "exposed",
    "conspiracy", "cover-up", "scandal", "breaking"]).map String.toList

/-- Emotional-manipulation word list of `_analyze_claim_heuristics`. -/
def emotional_words : List (List Char) :=
  (["fear", "panic", "terrifying", "horrifying", "outrageous", "disgusting",
    "shameful"]).map String.toList

/-- Factual-indicator list of `_analyze_claim_heuristics`. -/
def factual_indicators : List (List Char) :=
  (["percent", "%", "million", "billion", "study shows", "research indicates",
    "data shows"]).map String.toList

/-- Source-credibility indicators of `_analyze_evidence_quality`. -/
def source_indicators : List (List Char) :=
  (["study", "research", "according to", "expert", "official", "government",
    "university", "journal", "published"]).map String.toList

/-- Recent-year tokens of `_analyze_evidence_quality`. -/
def year_tokens : List (List Char) :=
  (["2023", "2024", "2025"]).map String.toList

/-- Statistic markers of `_analyze_evidence_quality`. -/
def stat_markers : List (List Char) :=
  (["%", "$", "million", "billion", "thousand"]).map String.toList

/-- The per-snippet increments of `_analyze_evidence_quality`'s loop body. -/
def snippetQuality (s : List Char) : ℚ :=
  (if 100 < s.length then 5 else 0) +
  (if anyIn source_indicators (s.map lowerChar) then 8 else 0) +
  (if anyIn year_tokens s then 3 else 0) +
  (if anyIn stat_markers s then 4 else 0)

/-- `_analyze_evidence_quality`: sum the per-snippet increments, capped at
25; an empty snippet list yields the flat −20. -/
def analyze_evidence_quality (snips : List (List Char)) : ℚ :=
  if snips = [] then -20
  else min (snips.foldl (fun q s => q + snippetQuality s) 0) 25

/-- The fixed score-to-label banding of lines 172-179 of
`classification_service.py` (and of the spec): `≥70 → True`,
`[40,70) → Unverified`, `[20,40) → Misleading`, `<20 → False`. -/
def scoreLabel (s : ℚ) : String :=
  if 70 ≤ s then "True"
  else if 40 ≤ s then "Unverified"
  else if 20 ≤ s then "Misleading"
  else "False"

/-- Clamp a score to `[0, 100]` (`max(0, min(100, s))`). -/
def clamp100 (x : ℚ) : ℚ := max 0 (min 100 x)

/-- The dictionary returned by `_analyze_claim_heuristics`: keys
`classification`, `score`, `reasoning` (note: no `reliability_score` or
`confidence` key).  The reasoning phrases are modelled without the `+x.x`
numeric suffix of the evidence phrase. -/
structure HeuristicResult where
  classification : String
  score : ℚ
  reasoning : String
deriving DecidableEq

/-- `_analyze_claim_heuristics`: additive rule-based scoring from base 50,
label derived from the unclamped final score, score clamped to [0,100]. -/
def analyze_claim_heuristics (claim : List Char) (evidence : List (List Char)) :
    HeuristicResult :=
  let lowered := claim.map lowerChar
  let feats := extract_claim_features claim
  let s1 : ℚ := if feats.has_caps then 50 - 10 else 50
  let s2 := if feats.sentences.length = 1 ∧ feats.word_count < 5 then s1 - 15 else s1
  let s3 := if anyIn scientific_words lowered then s2 + 15 else s2
  let s4 := if anyIn authority_words lowered then s3 + 10 else s3
  let s5 := if anyIn uncertainty_words lowered then s4 - 3 else s4
  let s6 := if anyIn absolute_words lowered then s5 - 5 else s5
  let s7 := if anyIn sensational_words lowered then s6 - 15 else s6
  let s8 := if anyIn emotional_words lowered then s7 - 8 else s7
  let s9 := if anyIn factual_indicators lowered then s8 + 8 else s8
  let s10 := if evidence = [] then s9 - 20 else s9 + analyze_evidence_quality evidence
  let cls := scoreLabel s10
  let parts : List String :=
    (if feats.has_caps then ["Contains excessive capitalization"] else []) ++
    (if feats.sentences.length = 1 ∧ feats.word_count < 5 then
      ["Very short claim with limited context"] else []) ++
    (if anyIn scientific_words lowered then ["Contains scientific language"] else []) ++
    (if anyIn authority_words lowered then ["References authoritative sources"] else []) ++
    (if anyIn uncertainty_words lowered then ["Contains uncertainty language"] else []) ++
    (if anyIn absolute_words lowered then ["Contains absolute statements"] else []) ++
    (if anyIn sensational_words lowered then ["Contains sensational language"] else []) ++
    (if anyIn emotional_words lowered then ["Contains emotional manipulation"] else []) ++
    (if anyIn factual_indicators lowered then ["Contains specific factual claims"] else []) ++
    (if evidence = [] then ["No supporting evidence found"]
     else ["Evidence quality analysis"])
  { classification := cls
    score := clamp100 s10
    reasoning := if parts = [] then "Standard analysis applied"
                 else String.intercalate "; " parts }

/-- A result dictionary of `classify_claim`; an `Option` field is `none`
when the corresponding key is absent from the Python dict, so that reading
an absent key is visible as a `KeyError`. -/
structure ResultDict where
  classification : String
  score : Option ℚ
  reliability_score : Option ℚ
  confidence : Option ℚ
  reasoning : String
deriving DecidableEq

/-- The sentiment adjustment of `_combine_analysis_results`:
`LABEL_0` (negative) −5×score, `LABEL_2` (positive) +2×score, else 0. -/
def sentimentAdjustment (label : String) (conf : ℚ) : ℚ :=
  if label = "LABEL_0" then -5 * conf
  else if label = "LABEL_2" then 2 * conf
  else 0

/-- `_combine_analysis_results`: adjust the heuristic score by the
sentiment signal, re-clamp, and re-derive the label through the
band/label-mismatch chain of the source.  The appended reasoning phrase is
modelled without its `+x.x` numeric suffix. -/
def combine_analysis_results (h : HeuristicResult) (label : String) (conf : ℚ) :
    ResultDict :=
  let adjustment := sentimentAdjustment label conf
  let final_score := clamp100 (h.score + adjustment)
  let c1 := h.classification
  let c2 :=
    if 70 ≤ final_score ∧ c1 ≠ "True" then "True"
    else if final_score < 20 ∧ c1 ≠ "False" then "False"
    else if 20 ≤ final_score ∧ final_score < 40 ∧ c1 ≠ "Misleading" ∧ c1 ≠ "False" then
      "Misleading"
    else if 40 ≤ final_score ∧ final_score < 70 ∧ c1 ≠ "Unverified" ∧ c1 ≠ "True" then
      "Unverified"
    else c1
  { classification := c2
    score := none
    reliability_score := some final_score
    confidence := some (min (conf * 100) 95)
    reasoning := if adjustment ≠ 0 then h.reasoning ++ "; Sentiment analysis adjustment"
                 else h.reasoning }

/-- Outcome of the auxiliary sentiment model inside `classify_claim`:
`unavailable` models `self.classifier is None`, `failure` models the
pipeline call raising, `success label score` models
`self.classifier(processed_claim)[0]`. -/
inductive SentimentOutcome where
  | unavailable : SentimentOutcome
  | failure : SentimentOutcome
  | success : String → ℚ → SentimentOutcome
deriving DecidableEq

/-- The heuristic dictionary viewed as a `classify_claim` result: it has a
`score` key but no `reliability_score` or `confidence` key. -/
def heuristicDict (h : HeuristicResult) : ResultDict :=
  { classification := h.classification
    score := some h.score
    reliability_score := none
    confidence := none
    reasoning := h.reasoning }

/-- The degraded dictionary built by `classify_claim`'s outer `except`. -/
def classifyError (msg : String) : ResultDict :=
  { classification := "Unverified"
    score := none
    reliability_score := some 0
    confidence := some 0
    reasoning := "Classification error: " ++ msg }

/-- `classify_claim`: preprocess, run the heuristics, optionally fuse the
sentiment signal; the final logging line reads
`final_result['reliability_score']`, which raises a `KeyError` (message
`'reliability_score'`) whenever the dict is the plain heuristic one, and
the outer `except` turns that into the degraded default. -/
def classify_claim (claim : List Char) (evidence : List (List Char))
    (sentiment : SentimentOutcome) : ResultDict :=
  let processed := preprocess_for_embedding claim
  if stripChars processed = [] then
    { classification := "Unverified"
      score := none
      reliability_score := some 0
      confidence := some 0
      reasoning := "Empty or invalid claim text" }
  else
    let h := analyze_claim_heuristics processed evidence
    let finalResult :=
      match sentiment with
      | .success label conf => combine_analysis_results h label conf
      | _ => heuristicDict h
    match finalResult.reliability_score with
    | some _ => finalResult
    | none => classifyError "'reliability_score'"

/-- A row of the `fact_sources` table. -/
structure FactSource where
  id : Nat
  title : List Char
  content : List Char
  source_name : List Char
  source_url : List Char
deriving DecidableEq

/-- A Qdrant hit payload: a string-keyed dict whose entries may be absent
(`payload.get(key, default)`). -/
structure Payload where
  title : Option (List Char)
  content : Option (List Char)
  source_name : Option (List Char)
  source_url : Option (List Char)
deriving DecidableEq

/-- One vector-search hit (`{"id", "score", "payload"}`). -/
structure VecHit where
  id : Nat
  score : ℚ
  payload : Payload
deriving DecidableEq

/-- One keyword-search match (`{"id", "score", "source"}`; the constant
`"match_type": "keyword"` entry is re-derived downstream and omitted). -/
structure KwHit where
  id : Nat
  score : ℚ
  source : FactSource
deriving DecidableEq

/-- `_keyword_search`: score every corpus source by normalized keyword
overlap against lowercased `title + " " + content`, keep positive scores,
sort descending (stable), truncate.  Its internal `try` body cannot fail in
the model, so the `except` branch is unreachable. -/
def keyword_search (claim : List Char) (corpus : List FactSource) (limit : Nat) :
    List KwHit :=
  let keywords := extract_keywords claim 5
  if keywords = [] then []
  else
    let kmatches := corpus.filterMap (fun src =>
      let source_text := (src.title ++ ' ' :: src.content).map lowerChar
      let kscore := (keywords.filter
        (fun k => containsSub (k.map lowerChar) source_text)).length
      if 0 < kscore then some ⟨src.id, (kscore : ℚ) / (keywords.length : ℚ), src⟩
      else none)
    (sortByDesc (fun h => h.score) kmatches).take limit

/-- An entry of the `unified_results` dict of `_combine_and_rerank`.
`payload`/`source` are `none` when the corresponding key is absent. -/
structure Unified where
  id : Nat
  vector_score : ℚ
  keyword_score : ℚ
  payload : Option Payload
  source : Option FactSource
  match_type : String
deriving DecidableEq

/-- `unified_results[id] = {...}` for a vector hit: overwrite in place if
the id is present (keeping Python-dict insertion order), else append. -/
def upsertVec (m : List Unified) (h : VecHit) : List Unified :=
  let entry : Unified := ⟨h.id, h.score, 0, some h.payload, none, "vector"⟩
  if m.any (fun u => u.id == h.id) then
    m.map (fun u => if u.id == h.id then entry else u)
  else m ++ [entry]

/-- The keyword pass of `_combine_and_rerank`: update `keyword_score` and
`match_type` in place when the id was found by the vector pass, else append
a keyword-only entry. -/
def updateKw (m : List Unified) (h : KwHit) : List Unified :=
  if m.any (fun u => u.id == h.id) then
    m.map (fun u =>
      if u.id == h.id then { u with keyword_score := h.score, match_type := "hybrid" }
      else u)
  else m ++ [⟨h.id, 0, h.score, none, some h.source, "keyword"⟩]

/-- One formatted entry of `_combine_and_rerank`'s output. -/
structure RetrievedDoc where
  source_id : Nat
  hybrid_score : ℚ
  vector_score : ℚ
  keyword_score : ℚ
  match_type : String
  title : List Char
  content : List Char
  source_name : List Char
  source_url : List Char
deriving DecidableEq

/-- Formatting of one unified entry: hybrid score `0.7*vector + 0.3*keyword`;
source fields from the `source` key when present (keyword-only entries),
else from the payload with `get` defaults. -/
def formatDoc (u : Unified) : RetrievedDoc :=
  let hybrid := 0.7 * u.vector_score + 0.3 * u.keyword_score
  match u.source with
  | some s =>
    ⟨u.id, hybrid, u.vector_score, u.keyword_score, u.match_type,
      s.title, s.content, s.source_name, s.source_url⟩
  | none =>
    let p := u.payload.getD ⟨none, none, none, none⟩
    ⟨u.id, hybrid, u.vector_score, u.keyword_score, u.match_type,
      p.title.getD ("Unknown".toList), p.content.getD [],
      p.source_name.getD ("Unknown".toList), p.source_url.getD []⟩

/-- `_combine_and_rerank` (its `claim` parameter is unused in the source
and omitted): union both hit lists by id in discovery order, compute hybrid
scores, sort descending (stable), truncate to `max_results`. -/
def combine_and_rerank (vector_results : List VecHit) (keyword_results : List KwHit)
    (max_results : Nat) : List RetrievedDoc :=
  let unified := keyword_results.foldl updateKw (vector_results.foldl upsertVec [])
  let final := unified.map formatDoc
  (sortByDesc (fun d => d.hybrid_score) final).take max_results

/-- Outcome of a call to an external collaborator: `failure` models the
Python call raising. -/
inductive ExtOutcome (α : Type) where
  | failure : ExtOutcome α
  | success : α → ExtOutcome α
deriving DecidableEq

/-- `retrieve_evidence`: embedding generation, vector search, keyword
search, fusion — all inside one `try` whose `except` returns `[]`, so a
raise from the embedding provider or the vector index yields `[]` without
running the later steps. -/
def retrieve_evidence (claim : List Char) (corpus : List FactSource)
    (embedding : ExtOutcome (List ℚ)) (vectorSearch : ExtOutcome (List VecHit))
    (max_results : Nat) : List RetrievedDoc :=
  match embedding with
  | .failure => []
  | .success _ =>
    match vectorSearch with
    | .failure => []
    | .success vhits =>
      let khits := keyword_search claim corpus (max_results * 2)
      combine_and_rerank vhits khits max_results

/-- `sum(1 for keyword in claim_keywords if keyword.lower() in sentence_lower)`. -/
def keywordMatches (kws : List (List Char)) (sent : List Char) : Nat :=
  (kws.filter (fun k => containsSub (k.map lowerChar) (sent.map lowerChar))).length

/-- Truncate a snippet to `maxLen` characters, appending `"..."` when it
was longer. -/
def truncateSnippet (maxLen : Nat) (s : List Char) : List Char :=
  if maxLen < s.length then s.take maxLen ++ ("...".toList) else s

/-- The per-candidate body of `extract_evidence_snippets`: skip empty
content; keep sentences with a positive keyword-match count; stable-sort
them by count descending; take the head sentence, if any, and truncate it
(the `if relevant_sentences: relevant_sentences[0][0]` of the source). -/
def bestSnippet (kws : List (List Char)) (maxLen : Nat) (src : RetrievedDoc) :
    Option (List Char) :=
  if src.content = [] then none
  else
    let sents := extract_sentences src.content
    let relevant := (sents.map (fun s => (s, keywordMatches kws s))).filter
      (fun p => 0 < p.2)
    (sortByDesc (fun p : List Char × Nat => p.2) relevant).head?.map
      (fun best => truncateSnippet maxLen best.1)

/-- `extract_evidence_snippets`: one best snippet per contributing source,
in source order. -/
def extract_evidence_snippets (claim : List Char) (sources : List RetrievedDoc)
    (max_snippet_length : Nat) : List (List Char) :=
  sources.filterMap (bestSnippet (extract_keywords claim 3) max_snippet_length)

/-- First element attaining the maximal key (later elements replace the
current best only on a strictly greater key).  Stated from the spec's words
"select the sentence with the highest match count (ties: first by
position)" for comparison with the sort-based source. -/
def pickFirstMax {α β : Type} [LinearOrder β] (key : α → β) : List α → Option α
  | [] => none
  | x :: xs =>
    match pickFirstMax key xs with
    | none => some x
    | some m => if key x < key m then some m else some x

/-- The per-candidate snippet choice as the spec words it (argmax of the
match count with first-position tie-break), for comparison with
`bestSnippet`. -/
def bestSnippetSpec (kws : List (List Char)) (maxLen : Nat) (src : RetrievedDoc) :
    Option (List Char) :=
  if src.content = [] then none
  else
    let sents := extract_sentences src.content
    let relevant := (sents.map (fun s => (s, keywordMatches kws s))).filter
      (fun p => 0 < p.2)
    (pickFirstMax (fun p : List Char × Nat => p.2) relevant).map
      (fun best => truncateSnippet maxLen best.1)

/-- Snippet extraction as the spec words it, for comparison with
`extract_evidence_snippets`. -/
def snippetSpec (claim : List Char) (sources : List RetrievedDoc)
    (max_snippet_length : Nat) : List (List Char) :=
  sources.filterMap (bestSnippetSpec (extract_keywords claim 3) max_snippet_length)

/-- One batch input (`{"text": ..., "source_url": ...}`). -/
structure ClaimInput where
  text : List Char
  source_url : Option (List Char)

/-- The fields shared by every result dict `analyze_claims_batch` appends
(the per-claim `analyze_claim` results carry further keys — id, confidence,
timing — that the batch loop never inspects). -/
structure BatchResult where
  claim : List Char
  classification : String
  reliability : ℚ
  evidence : List (List Char)
  reasoning : String
  source_url : Option (List Char)
deriving DecidableEq

/-- Outcome of one `await self.analyze_claim(...)` call: `success` with its
result dict, or `failure` with the exception text (caught by the loop's
`except`). -/
inductive AnalyzeOutcome where
  | success : BatchResult → AnalyzeOutcome
  | failure : String → AnalyzeOutcome

/-- The body of the batch loop for one claim: empty text short-circuits to
the fixed degraded entry; otherwise the per-claim analysis runs and a raise
becomes the error entry for that claim alone. -/
def batchStep (analyzeOne : ClaimInput → AnalyzeOutcome) (cd : ClaimInput) :
    BatchResult :=
  if stripChars cd.text = [] then
    ⟨cd.text, "Unverified", 0, [], "Empty claim text", cd.source_url⟩
  else
    match analyzeOne cd with
    | .success r => r
    | .failure e => ⟨cd.text, "Unverified", 0, [], "Analysis error: " ++ e, cd.source_url⟩

/-- `analyze_claims_batch`: sequential loop appending one result per input
claim.  The per-claim pipeline (an external orchestration over the
database, embedding and retrieval collaborators) is the parameter
`analyzeOne`. -/
def analyze_claims_batch (claims : List ClaimInput)
    (analyzeOne : ClaimInput → AnalyzeOutcome) : List BatchResult :=
  claims.foldl (fun results cd => results ++ [batchStep analyzeOne cd]) []

/-- Decidable check that a claim text triggers none of the heuristic rules
of `_analyze_claim_heuristics` other than the no-evidence penalty. -/
def noHeuristicTriggers (claim : List Char) : Bool :=
  let lowered := claim.map lowerChar
  let feats := extract_claim_features claim
  !feats.has_caps &&
  !(decide (feats.sentences.length = 1 ∧ feats.word_count < 5)) &&
  !(anyIn scientific_words lowered) && !(anyIn authority_words lowered) &&
  !(anyIn uncertainty_words lowered) && !(anyIn absolute_words lowered) &&
  !(anyIn sensational_words lowered) && !(anyIn emotional_words lowered) &&
  !(anyIn factual_indicators lowered)

/-- The auxiliary sentiment model returns a softmax probability, so a
successful signal carries a score in `[0, 1]`. -/
def sentimentOk : SentimentOutcome → Prop
  | .success _ conf => 0 ≤ conf ∧ conf ≤ 1
  | _ => True

/-- Characters that can survive `clean_text`: word characters, the space,
and the whitelisted punctuation. -/
def keptCh (c : Char) : Bool :=
  isWordCh c || c == ' ' || isKeptPunct c

/-- No two adjacent whitespace characters. -/
def noTwoSpaces : List Char → Bool
  | [] => true
  | [_] => true
  | c :: d :: cs => !(isSpaceCh c && isSpaceCh d) && noTwoSpaces (d :: cs)

/-- Normal form of `clean_text` outputs: every character is a kept,
lowercase-stable one; whitespace runs are single spaces; no leading or
trailing whitespace. -/
def IsCleanText (y : List Char) : Prop :=
  (∀ c ∈ y, keptCh c = true ∧ lowerChar c = c) ∧
  noTwoSpaces y = true ∧
  y.dropWhile isSpaceCh = y ∧
  dropTrailingSpaces y = y

/-- Concrete claim text that triggers none of the lexical heuristics. -/
def calmClaim : List Char := ("the weather outside seems quite pleasant today").toList

/-- Concrete claim text whose heuristic score is 73 (scientific language
+15, specific factual claims +8 on top of the base 50). -/
def fusionClaim : List Char :=
  ("research data shows 50 percent improvement in trials").toList

/-- A short evidence snippet contributing no quality bonus. -/
def okSnippet : List Char := ("ok").toList

/-- A single-snippet evidence list of zero quality bonus. -/
def okEvidence : List (List Char) := [okSnippet]

/-- Concrete claim whose top keywords are `research`, `data`, `shows`. -/
def snippetClaim : List Char := ("research data shows improvement").toList

/-- A retrieved source with non-empty content and one extractable sentence
that matches none of `snippetClaim`'s keywords. -/
def unrelatedDoc : RetrievedDoc :=
  ⟨1, 0, 0, 0, "keyword", ("title").toList,
    ("the sky was blue over the hills").toList, ("src").toList, []⟩

/-! ### Shared lemmas -/

theorem clamp100_nonneg (x : ℚ) : 0 ≤ clamp100 x := le_max_left 0 _

theorem clamp100_le_100 (x : ℚ) : clamp100 x ≤ 100 :=
  max_le (by norm_num) (min_le_left _ _)

theorem clamp100_le_of_le {x b : ℚ} (h0 : 0 ≤ b) (h : x ≤ b) : clamp100 x ≤ b :=
  max_le h0 (le_trans (min_le_right _ _) h)

theorem scoreLabel_clamp100 (s : ℚ) : scoreLabel (clamp100 s) = scoreLabel s := by
  unfold scoreLabel clamp100
  rcases le_total s 0 with h0 | h0
  · rw [min_eq_right (le_trans h0 (by norm_num)), max_eq_left h0,
      if_neg (by norm_num), if_neg (by norm_num), if_neg (by norm_num),
      if_neg (by linarith), if_neg (by linarith), if_neg (by linarith)]
  · rcases le_total s 100 with h1 | h1
    · rw [min_eq_right h1, max_eq_right h0]
    · rw [min_eq_left h1, max_eq_right (by norm_num : (0:ℚ) ≤ 100),
        if_pos (by norm_num), if_pos (by linarith)]

theorem classify_eval_success (claim : List Char) (evidence : List (List Char))
    (lab : String) (conf : ℚ)
    (he : ¬(stripChars (preprocess_for_embedding claim) = [])) :
    (classify_claim claim evidence (SentimentOutcome.success lab conf)).reliability_score =
      some (clamp100 ((analyze_claim_heuristics (preprocess_for_embedding claim)
        evidence).score + sentimentAdjustment lab conf)) ∧
    (classify_claim claim evidence (SentimentOutcome.success lab conf)).classification =
      (combine_analysis_results (analyze_claim_heuristics (preprocess_for_embedding claim)
        evidence) lab conf).classification := by
  constructor <;> simp [classify_claim, he, combine_analysis_results]

/-! ### C6 -/

/-- C6: for every claim and evidence list, the heuristic classification
label is exactly the band of the (clamped) returned score: `True` for
scores at least 70, `Unverified` on `[40,70)`, `Misleading` on `[20,40)`,
and `False` below 20. -/
theorem C6_label_bands (claim : List Char) (evidence : List (List Char)) :
    (analyze_claim_heuristics claim evidence).classification =
      scoreLabel (analyze_claim_heuristics claim evidence).score := by
  simp only [analyze_claim_heuristics]
  exact (scoreLabel_clamp100 _).symm

/-! ### C4 -/

/-- C4: whenever the sentiment classifier is unavailable or raises,
`classify_claim` returns `Unverified` with reliability 0 and confidence 0,
whatever the heuristics computed; the heuristic dictionary indeed carries
its score under the `score` key and has no `reliability_score` key, whose
lookup is what fails. -/
theorem C4_missing_key_degrades (claim : List Char) (evidence : List (List Char))
    (s : SentimentOutcome)
    (hs : s = SentimentOutcome.unavailable ∨ s = SentimentOutcome.failure) :
    (classify_claim claim evidence s).classification = "Unverified" ∧
    (classify_claim claim evidence s).reliability_score = some 0 ∧
    (classify_claim claim evidence s).confidence = some 0 ∧
    (heuristicDict (analyze_claim_heuristics (preprocess_for_embedding claim)
        evidence)).reliability_score = none ∧
    (heuristicDict (analyze_claim_heuristics (preprocess_for_embedding claim)
        evidence)).score =
      some (analyze_claim_heuristics (preprocess_for_embedding claim) evidence).score := by
  rcases hs with rfl | rfl <;>
    by_cases he : stripChars (preprocess_for_embedding claim) = [] <;>
      simp [classify_claim, he, heuristicDict, classifyError]

theorem C4_missing_key_degrades_witness :
    (classify_claim ("hello world").toList [] SentimentOutcome.unavailable).classification
        = "Unverified" ∧
    (classify_claim ("hello world").toList []
        SentimentOutcome.unavailable).reliability_score = some 0 ∧
    (classify_claim ("hello world").toList [] SentimentOutcome.unavailable).confidence
        = some 0 ∧
    (heuristicDict (analyze_claim_heuristics
        (preprocess_for_embedding ("hello world").toList) [])).reliability_score = none ∧
    (heuristicDict (analyze_claim_heuristics
        (preprocess_for_embedding ("hello world").toList) [])).score =
      some (analyze_claim_heuristics
        (preprocess_for_embedding ("hello world").toList) []).score :=
  C4_missing_key_degrades ("hello world").toList [] SentimentOutcome.unavailable (Or.inl rfl)

/-! ### C3 -/

/-- C3: `classify_claim` is a total function (the model of "never
raises"); its returned reliability score and confidence always exist and
lie in `[0,100]`; and when the sentiment signal is unavailable or raises
the result is the degraded `Unverified`/0/0 with the failure reason — the
`KeyError` text `'reliability_score'` folded into the
`Classification error: ...` message — in the reasoning field (for
non-empty claims; empty claims are rejected by the earlier input-validation
branch with its own message). -/
theorem C3_classify_total_bounds (claim : List Char) (evidence : List (List Char))
    (s : SentimentOutcome) (hs : sentimentOk s) :
    ∃ q c, (classify_claim claim evidence s).reliability_score = some q ∧
      0 ≤ q ∧ q ≤ 100 ∧
      (classify_claim claim evidence s).confidence = some c ∧
      0 ≤ c ∧ c ≤ 100 ∧
      ((∀ lab conf, s ≠ SentimentOutcome.success lab conf) →
        (classify_claim claim evidence s).classification = "Unverified" ∧ q = 0 ∧ c = 0 ∧
        (stripChars (preprocess_for_embedding claim) ≠ [] →
          (classify_claim claim evidence s).reasoning =
            "Classification error: 'reliability_score'")) := by
  by_cases he : stripChars (preprocess_for_embedding claim) = []
  · refine ⟨0, 0, ?_, le_refl 0, by norm_num, ?_, le_refl 0, by norm_num,
      fun _ => ⟨?_, rfl, rfl, fun hne => absurd he hne⟩⟩ <;> simp [classify_claim, he]
  · cases s with
    | unavailable =>
      refine ⟨0, 0, ?_, le_refl 0, by norm_num, ?_, le_refl 0, by norm_num,
        fun _ => ⟨?_, rfl, rfl, fun _ => ?_⟩⟩ <;>
        simp [classify_claim, he, heuristicDict, classifyError]
    | failure =>
      refine ⟨0, 0, ?_, le_refl 0, by norm_num, ?_, le_refl 0, by norm_num,
        fun _ => ⟨?_, rfl, rfl, fun _ => ?_⟩⟩ <;>
        simp [classify_claim, he, heuristicDict, classifyError]
    | success lab conf =>
      rcases hs with ⟨h0, h1⟩
      refine ⟨clamp100 ((analyze_claim_heuristics (preprocess_for_embedding claim)
          evidence).score + sentimentAdjustment lab conf), min (conf * 100) 95,
        ?_, clamp100_nonneg _, clamp100_le_100 _, ?_, ?_, ?_,
        fun hns => absurd rfl (hns lab conf)⟩
      · simp [classify_claim, he, combine_analysis_results]
      · simp [classify_claim, he, combine_analysis_results]
      · exact le_min (mul_nonneg h0 (by norm_num)) (by norm_num)
      · exact le_trans (min_le_right _ _) (by norm_num)

theorem C3_classify_total_bounds_witness :
    sentimentOk (SentimentOutcome.success "LABEL_1" (1/2)) ∧
    (∃ q c, (classify_claim ("hello world").toList []
        (SentimentOutcome.success "LABEL_1" (1/2))).reliability_score = some q ∧
      0 ≤ q ∧ q ≤ 100 ∧
      (classify_claim ("hello world").toList []
        (SentimentOutcome.success "LABEL_1" (1/2))).confidence = some c ∧
      0 ≤ c ∧ c ≤ 100 ∧
      ((∀ lab conf, SentimentOutcome.success "LABEL_1" (1/2) ≠
          SentimentOutcome.success lab conf) →
        (classify_claim ("hello world").toList []
          (SentimentOutcome.success "LABEL_1" (1/2))).classification = "Unverified" ∧
        q = 0 ∧ c = 0 ∧
        (stripChars (preprocess_for_embedding ("hello world").toList) ≠ [] →
          (classify_claim ("hello world").toList []
            (SentimentOutcome.success "LABEL_1" (1/2))).reasoning =
              "Classification error: 'reliability_score'"))) :=
  ⟨⟨by norm_num, by norm_num⟩,
    C3_classify_total_bounds ("hello world").toList [] (SentimentOutcome.success "LABEL_1" (1/2))
      ⟨by norm_num, by norm_num⟩⟩

/-! ### C8 -/

theorem heuristics_of_noTriggers (claim : List Char)
    (h : noHeuristicTriggers claim = true) :
    (analyze_claim_heuristics claim []).score = 30 ∧
    (analyze_claim_heuristics claim []).classification = "Misleading" := by
  simp only [noHeuristicTriggers, Bool.and_eq_true, Bool.not_eq_true',
    decide_eq_false_iff_not] at h
  obtain ⟨⟨⟨⟨⟨⟨⟨⟨h1, h2⟩, h3⟩, h4⟩, h5⟩, h6⟩, h7⟩, h8⟩, h9⟩ := h
  constructor <;>
    simp [analyze_claim_heuristics, h1, h2, h3, h4, h5, h6, h7, h8, h9,
      clamp100, scoreLabel] <;> norm_num

/-- C8 (counterexample): for a claim triggering no other heuristic and an
empty evidence list, a positive sentiment signal with confidence 1 pushes
the returned score to 32, above the claimed bound of 30. -/
theorem C8_counterexample :
    (classify_claim calmClaim []
        (SentimentOutcome.success "LABEL_2" 1)).reliability_score = some 32 ∧
    ¬((32 : ℚ) ≤ 30) := by
  constructor
  · obtain ⟨hsc, -⟩ := heuristics_of_noTriggers (preprocess_for_embedding calmClaim)
      (by decide)
    have he : ¬(stripChars (preprocess_for_embedding calmClaim) = []) := by decide
    obtain ⟨hrel, -⟩ := classify_eval_success calmClaim [] "LABEL_2" 1 he
    rw [hrel, hsc]
    have hL : ¬(("LABEL_2" : String) = "LABEL_0") := by decide
    norm_num [sentimentAdjustment, hL, clamp100, min_def, max_def]
  · norm_num

/-- C8 (amended): for every claim text that triggers none of the other
lexical heuristics, `classify_claim` with an empty evidence list is total
(never raises) and its heuristic score is exactly 30 (base 50 minus the
flat no-evidence 20); the returned reliability score is at most 32 — the
positive sentiment adjustment can add up to `+2×confidence ≤ +2` on top of
the 30. -/
theorem C8_amended_bound (claim : List Char) (s : SentimentOutcome)
    (ht : noHeuristicTriggers (preprocess_for_embedding claim) = true)
    (hs : sentimentOk s) :
    (analyze_claim_heuristics (preprocess_for_embedding claim) []).score = 30 ∧
    ∃ q, (classify_claim claim [] s).reliability_score = some q ∧ q ≤ 32 := by
  obtain ⟨hsc, hcl⟩ := heuristics_of_noTriggers _ ht
  refine ⟨hsc, ?_⟩
  by_cases he : stripChars (preprocess_for_embedding claim) = []
  · exact ⟨0, by simp [classify_claim, he], by norm_num⟩
  · cases s with
    | unavailable =>
      exact ⟨0, by simp [classify_claim, he, heuristicDict, classifyError], by norm_num⟩
    | failure =>
      exact ⟨0, by simp [classify_claim, he, heuristicDict, classifyError], by norm_num⟩
    | success lab conf =>
      rcases hs with ⟨h0, h1⟩
      refine ⟨clamp100 ((analyze_claim_heuristics (preprocess_for_embedding claim) []).score
          + sentimentAdjustment lab conf),
        by simp [classify_claim, he, combine_analysis_results], ?_⟩
      rw [hsc]
      apply clamp100_le_of_le (by norm_num)
      have hadj : sentimentAdjustment lab conf ≤ 2 := by
        unfold sentimentAdjustment
        split_ifs with hL0 hL2
        · linarith
        · linarith
        · norm_num
      linarith

theorem C8_amended_bound_witness :
    noHeuristicTriggers (preprocess_for_embedding calmClaim) = true ∧
    ((analyze_claim_heuristics (preprocess_for_embedding calmClaim) []).score = 30 ∧
      ∃ q, (classify_claim calmClaim []
        (SentimentOutcome.success "LABEL_2" 1)).reliability_score = some q ∧ q ≤ 32) :=
  ⟨by decide,
    C8_amended_bound calmClaim (SentimentOutcome.success "LABEL_2" 1) (by decide)
      ⟨by norm_num, by norm_num⟩⟩

/-! ### C1 -/

theorem combineLabel_eq (fs : ℚ) (c1 : String) :
    (if 70 ≤ fs ∧ c1 ≠ "True" then "True"
     else if fs < 20 ∧ c1 ≠ "False" then "False"
     else if 20 ≤ fs ∧ fs < 40 ∧ c1 ≠ "Misleading" ∧ c1 ≠ "False" then "Misleading"
     else if 40 ≤ fs ∧ fs < 70 ∧ c1 ≠ "Unverified" ∧ c1 ≠ "True" then "Unverified"
     else c1) =
    (if 70 ≤ fs then "True"
     else if fs < 20 then "False"
     else if fs < 40 then (if c1 = "False" then "False" else "Misleading")
     else (if c1 = "True" then "True" else "Unverified")) := by
  rcases le_or_lt 70 fs with h70 | h70
  · rw [if_pos h70]
    by_cases hT : c1 = "True"
    · rw [if_neg (by rintro ⟨-, ht⟩; exact ht hT),
        if_neg (by rintro ⟨h2, -⟩; linarith),
        if_neg (by rintro ⟨-, h2, -⟩; linarith),
        if_neg (by rintro ⟨-, h2, -⟩; linarith)]
      exact hT
    · rw [if_pos ⟨h70, hT⟩]
  · rw [if_neg (not_le.2 h70)]
    rcases lt_or_le fs 20 with h20 | h20
    · rw [if_pos h20, if_neg (by rintro ⟨ha, -⟩; linarith)]
      by_cases hF : c1 = "False"
      · rw [if_neg (by rintro ⟨-, hf⟩; exact hf hF),
          if_neg (by rintro ⟨ha, -⟩; linarith),
          if_neg (by rintro ⟨ha, -⟩; linarith)]
        exact hF
      · rw [if_pos ⟨h20, hF⟩]
    · rw [if_neg (not_lt.2 h20)]
      rcases lt_or_le fs 40 with h40 | h40
      · rw [if_pos h40, if_neg (by rintro ⟨ha, -⟩; linarith),
          if_neg (by rintro ⟨ha, -⟩; linarith)]
        by_cases hF : c1 = "False"
        · rw [if_pos hF, if_neg (by rintro ⟨-, -, -, hf⟩; exact hf hF),
            if_neg (by rintro ⟨ha, -⟩; linarith)]
          exact hF
        · rw [if_neg hF]
          by_cases hM : c1 = "Misleading"
          · rw [if_neg (by rintro ⟨-, -, hm, -⟩; exact hm hM),
              if_neg (by rintro ⟨ha, -⟩; linarith)]
            exact hM
          · rw [if_pos ⟨h20, h40, hM, hF⟩]
      · rw [if_neg (not_lt.2 h40), if_neg (by rintro ⟨ha, -⟩; linarith),
          if_neg (by rintro ⟨ha, -⟩; linarith),
          if_neg (by rintro ⟨-, ha, -⟩; linarith)]
        by_cases hT : c1 = "True"
        · rw [if_pos hT, if_neg (by rintro ⟨-, -, -, ht⟩; exact ht hT)]
          exact hT
        · rw [if_neg hT]
          by_cases hU : c1 = "Unverified"
          · rw [if_neg (by rintro ⟨-, -, hu, -⟩; exact hu hU)]
            exact hU
          · rw [if_pos ⟨h40, h70, hU, hT⟩]

/-- C1 (amended): the sentiment adjustment is −5×confidence for a negative
signal (`LABEL_0`), +2×confidence for a positive signal (`LABEL_2`) and 0
otherwise, and the fused score is the clamped adjusted score; the fused
label, however, equals the band label of the adjusted score except that a
heuristic label `False` is kept when the adjusted score lies in `[20,40)`
and a heuristic label `True` is kept when it lies in `[40,70)` — so the
label is re-derived only in one direction, not "if and only if the
adjusted score lies in a different band". -/
theorem C1_amended_fusion (h : HeuristicResult) (label : String) (conf : ℚ) :
    (combine_analysis_results h label conf).reliability_score =
      some (clamp100 (h.score + sentimentAdjustment label conf)) ∧
    (label = "LABEL_0" → sentimentAdjustment label conf = -5 * conf) ∧
    (label = "LABEL_2" → sentimentAdjustment label conf = 2 * conf) ∧
    (label ≠ "LABEL_0" → label ≠ "LABEL_2" → sentimentAdjustment label conf = 0) ∧
    ((combine_analysis_results h label conf).classification =
      (if 70 ≤ clamp100 (h.score + sentimentAdjustment label conf) then "True"
       else if clamp100 (h.score + sentimentAdjustment label conf) < 20 then "False"
       else if clamp100 (h.score + sentimentAdjustment label conf) < 40 then
         (if h.classification = "False" then "False" else "Misleading")
       else (if h.classification = "True" then "True" else "Unverified"))) := by
  refine ⟨by simp [combine_analysis_results], ?_, ?_, ?_, ?_⟩
  · intro h0; simp [sentimentAdjustment, h0]
  · intro h2
    by_cases h0 : label = "LABEL_0"
    · rw [h0] at h2; simp at h2
    · simp [sentimentAdjustment, h0, h2]
  · intro h0 h2; simp [sentimentAdjustment, h0, h2]
  · simp only [combine_analysis_results]
    exact combineLabel_eq _ _

theorem C1_amended_fusion_witness :
    (combine_analysis_results ⟨"True", 73, "r"⟩ "LABEL_0" 1).reliability_score =
      some (clamp100 ((73 : ℚ) + sentimentAdjustment "LABEL_0" 1)) ∧
    sentimentAdjustment "LABEL_0" 1 = -5 * 1 :=
  ⟨(C1_amended_fusion ⟨"True", 73, "r"⟩ "LABEL_0" 1).1,
    (C1_amended_fusion ⟨"True", 73, "r"⟩ "LABEL_0" 1).2.1 rfl⟩

/-- C1 (counterexample): a heuristic result with label `True` and score 73,
fused with a negative signal of confidence 1, has adjusted score 68 — in
the `Unverified` band `[40,70)` — yet the label stays `True` instead of
being re-labelled `Unverified` as the claim requires. -/
theorem C1_counterexample :
    (analyze_claim_heuristics (preprocess_for_embedding fusionClaim)
      okEvidence).classification = "True" ∧
    (analyze_claim_heuristics (preprocess_for_embedding fusionClaim)
      okEvidence).score = 73 ∧
    (classify_claim fusionClaim okEvidence
      (SentimentOutcome.success "LABEL_0" 1)).classification = "True" ∧
    (classify_claim fusionClaim okEvidence
      (SentimentOutcome.success "LABEL_0" 1)).reliability_score = some 68 ∧
    (40 : ℚ) ≤ 68 ∧ (68 : ℚ) < 70 ∧ scoreLabel 68 = "Unverified" ∧
    "True" ≠ "Unverified" := by
  have hfc : (extract_claim_features (preprocess_for_embedding fusionClaim)).has_caps
      = false := by decide
  have hsw : ¬((extract_claim_features
        (preprocess_for_embedding fusionClaim)).sentences.length = 1 ∧
      (extract_claim_features (preprocess_for_embedding fusionClaim)).word_count < 5) := by
    decide
  have h3 : anyIn scientific_words ((preprocess_for_embedding fusionClaim).map lowerChar)
      = true := by decide
  have h4 : anyIn authority_words ((preprocess_for_embedding fusionClaim).map lowerChar)
      = false := by decide
  have h5 : anyIn uncertainty_words ((preprocess_for_embedding fusionClaim).map lowerChar)
      = false := by decide
  have h6 : anyIn absolute_words ((preprocess_for_embedding fusionClaim).map lowerChar)
      = false := by decide
  have h7 : anyIn sensational_words ((preprocess_for_embedding fusionClaim).map lowerChar)
      = false := by decide
  have h8 : anyIn emotional_words ((preprocess_for_embedding fusionClaim).map lowerChar)
      = false := by decide
  have h9 : anyIn factual_indicators ((preprocess_for_embedding fusionClaim).map lowerChar)
      = true := by decide
  have hq : analyze_evidence_quality okEvidence = 0 := by
    have e1 : ¬(100 < okSnippet.length) := by decide
    have e2 : anyIn source_indicators (okSnippet.map lowerChar) = false := by decide
    have e3 : anyIn year_tokens okSnippet = false := by decide
    have e4 : anyIn stat_markers okSnippet = false := by decide
    norm_num [analyze_evidence_quality, okEvidence, snippetQuality, e1, e2, e3, e4, min_def]
  have hev : okEvidence ≠ [] := by decide
  have hscore : (analyze_claim_heuristics (preprocess_for_embedding fusionClaim)
      okEvidence).score = 73 := by
    norm_num [analyze_claim_heuristics, hfc, hsw, h3, h4, h5, h6, h7, h8, h9, hq, hev,
      clamp100, min_def, max_def]
  have hcls : (analyze_claim_heuristics (preprocess_for_embedding fusionClaim)
      okEvidence).classification = "True" := by
    norm_num [analyze_claim_heuristics, hfc, hsw, h3, h4, h5, h6, h7, h8, h9, hq, hev,
      scoreLabel]
  have he : ¬(stripChars (preprocess_for_embedding fusionClaim) = []) := by decide
  obtain ⟨hrel, hc⟩ := classify_eval_success fusionClaim okEvidence "LABEL_0" 1 he
  refine ⟨hcls, hscore, ?_, ?_, by norm_num, by norm_num, by norm_num [scoreLabel],
    by decide⟩
  · rw [hc]
    simp only [combine_analysis_results]
    rw [hscore, hcls]
    norm_num [sentimentAdjustment, clamp100, min_def, max_def]
  · rw [hrel, hscore]
    norm_num [sentimentAdjustment, clamp100, min_def, max_def]

/-! ### C5 -/

theorem mem_insertByDesc {α β : Type} [LinearOrder β] (key : α → β) (x a : α)
    (l : List α) : a ∈ insertByDesc key x l ↔ a = x ∨ a ∈ l := by
  induction l with
  | nil => simp [insertByDesc]
  | cons y ys ih =>
    by_cases hk : key y ≤ key x
    · simp [insertByDesc, hk]
    · simp [insertByDesc, hk, ih]
      tauto

theorem mem_sortByDesc {α β : Type} [LinearOrder β] (key : α → β) (a : α)
    (l : List α) : a ∈ sortByDesc key l ↔ a ∈ l := by
  induction l with
  | nil => simp [sortByDesc]
  | cons y ys ih =>
    show a ∈ insertByDesc key y (sortByDesc key ys) ↔ _
    rw [mem_insertByDesc]
    simp [ih]

theorem combine_concrete_eval :
    combine_and_rerank
        [⟨1, 0.9, ⟨none, none, none, none⟩⟩, ⟨2, 0.5, ⟨none, none, none, none⟩⟩]
        [⟨2, 1, ⟨2, [], [], [], []⟩⟩] 5 =
      [⟨2, 0.65, 0.5, 1, "hybrid", "Unknown".toList, [], "Unknown".toList, []⟩,
       ⟨1, 0.63, 0.9, 0, "vector", "Unknown".toList, [], "Unknown".toList, []⟩] := by
  norm_num [combine_and_rerank, upsertVec, updateKw, formatDoc, sortByDesc, insertByDesc]

/-- C5 (counterexample): under the 0.7/0.3 fusion, the source with
`vector_score = 0.9`, `keyword_score = 0` has hybrid score 0.63 and is
ranked *below* the source with `vector_score = 0.5`, `keyword_score = 1`
(hybrid 0.65), not above it. -/
theorem C5_counterexample :
    (combine_and_rerank
        [⟨1, 0.9, ⟨none, none, none, none⟩⟩, ⟨2, 0.5, ⟨none, none, none, none⟩⟩]
        [⟨2, 1, ⟨2, [], [], [], []⟩⟩] 5).map
      (fun d => (d.source_id, d.hybrid_score)) = [(2, 0.65), (1, 0.63)] := by
  rw [combine_concrete_eval]
  rfl

/-- C5 (amended): every fused candidate's hybrid score equals
`0.7*vector_score + 0.3*keyword_score` (missing components 0), and
consequently the source with scores (0.9, 0) — hybrid 0.63 — is ranked
below the source with scores (0.5, 1) — hybrid 0.65. -/
theorem C5_amended_ranking :
    (∀ (vec : List VecHit) (kw : List KwHit) (m : Nat) (d : RetrievedDoc),
      d ∈ combine_and_rerank vec kw m →
      d.hybrid_score = 0.7 * d.vector_score + 0.3 * d.keyword_score) ∧
    ((combine_and_rerank
        [⟨1, 0.9, ⟨none, none, none, none⟩⟩, ⟨2, 0.5, ⟨none, none, none, none⟩⟩]
        [⟨2, 1, ⟨2, [], [], [], []⟩⟩] 5).map (fun d => d.source_id) = [2, 1]) := by
  constructor
  · intro vec kw m d hd
    have hmem := List.mem_of_mem_take hd
    rw [mem_sortByDesc] at hmem
    obtain ⟨u, hu, rfl⟩ := List.mem_map.1 hmem
    cases hsrc : u.source <;> simp [formatDoc, hsrc]
  · rw [combine_concrete_eval]
    rfl

theorem C5_amended_ranking_witness :
    (⟨2, 0.65, 0.5, 1, "hybrid", "Unknown".toList, [], "Unknown".toList, []⟩ :
        RetrievedDoc).hybrid_score =
      0.7 * (⟨2, 0.65, 0.5, 1, "hybrid", "Unknown".toList, [], "Unknown".toList, []⟩ :
        RetrievedDoc).vector_score +
      0.3 * (⟨2, 0.65, 0.5, 1, "hybrid", "Unknown".toList, [], "Unknown".toList, []⟩ :
        RetrievedDoc).keyword_score :=
  C5_amended_ranking.1
    [⟨1, 0.9, ⟨none, none, none, none⟩⟩, ⟨2, 0.5, ⟨none, none, none, none⟩⟩]
    [⟨2, 1, ⟨2, [], [], [], []⟩⟩] 5 _
    (by rw [combine_concrete_eval]; exact List.mem_cons_self _ _)

/-! ### C2 -/

/-- C2 (counterexample): with a corpus whose keyword channel finds a match,
a raise from the embedding provider makes `retrieve_evidence` return `[]` —
the keyword channel is never consulted — rather than the keyword-only
results. -/
theorem C2_counterexample :
    retrieve_evidence fusionClaim
        [⟨1, ("research report").toList,
          ("data shows improvement in research outcomes").toList, [], []⟩]
        ExtOutcome.failure (ExtOutcome.success []) 5 = [] ∧
    (keyword_search fusionClaim
        [⟨1, ("research report").toList,
          ("data shows improvement in research outcomes").toList, [], []⟩] 10).length = 1 := by
  exact ⟨rfl, by decide⟩

/-- C2 (amended): a raise from the embedding provider makes
`retrieve_evidence` return the empty degraded result (never an error — the
model is a total function), not the keyword-channel fallback; and with an
empty corpus and empty vector index the result is the empty list. -/
theorem C2_amended_failure_empty :
    (∀ (claim : List Char) (corpus : List FactSource) (vs : ExtOutcome (List VecHit))
        (m : Nat), retrieve_evidence claim corpus ExtOutcome.failure vs m = []) ∧
    (∀ (claim : List Char) (emb : List ℚ) (m : Nat),
      retrieve_evidence claim [] (ExtOutcome.success emb) (ExtOutcome.success []) m = []) := by
  refine ⟨fun claim corpus vs m => rfl, fun claim emb m => ?_⟩
  by_cases hk : extract_keywords claim 5 = [] <;>
    simp [retrieve_evidence, keyword_search, hk, combine_and_rerank, sortByDesc]

/-! ### C10 -/

theorem batch_eq_map (claims : List ClaimInput) (f : ClaimInput → AnalyzeOutcome) :
    analyze_claims_batch claims f = claims.map (batchStep f) := by
  have gen : ∀ (l : List ClaimInput) (acc : List BatchResult),
      l.foldl (fun results cd => results ++ [batchStep f cd]) acc =
        acc ++ l.map (batchStep f) := by
    intro l
    induction l with
    | nil => intro acc; simp
    | cons x xs ih => intro acc; simp [ih]
  simpa [analyze_claims_batch] using gen claims []

/-- C10: batch analysis returns exactly one result per input claim, in
one-to-one order-preserving correspondence (the `i`-th output is determined
by the `i`-th input alone), and changing the per-claim analysis outcome of
every other claim leaves a claim's result unchanged. -/
theorem C10_batch_results (claims : List ClaimInput)
    (f g : ClaimInput → AnalyzeOutcome) :
    (analyze_claims_batch claims f).length = claims.length ∧
    (∀ (i : Nat) (cd : ClaimInput), claims[i]? = some cd →
      (analyze_claims_batch claims f)[i]? = some (batchStep f cd) ∧
      (f cd = g cd →
        (analyze_claims_batch claims f)[i]? = (analyze_claims_batch claims g)[i]?)) := by
  refine ⟨by rw [batch_eq_map]; simp, ?_⟩
  intro i cd hcd
  constructor
  · rw [batch_eq_map, List.getElem?_map, hcd]
    rfl
  · intro hfg
    rw [batch_eq_map, batch_eq_map, List.getElem?_map, List.getElem?_map, hcd]
    simp [batchStep, hfg]

theorem C10_batch_results_witness :
    (analyze_claims_batch [⟨("hello").toList, none⟩]
        (fun _ => AnalyzeOutcome.failure "boom")).length = 1 ∧
    (analyze_claims_batch [⟨("hello").toList, none⟩]
        (fun _ => AnalyzeOutcome.failure "boom"))[0]? =
      some (batchStep (fun _ => AnalyzeOutcome.failure "boom") ⟨("hello").toList, none⟩) :=
  ⟨(C10_batch_results [⟨("hello").toList, none⟩] (fun _ => AnalyzeOutcome.failure "boom")
      (fun _ => AnalyzeOutcome.failure "boom")).1,
    ((C10_batch_results [⟨("hello").toList, none⟩] (fun _ => AnalyzeOutcome.failure "boom")
      (fun _ => AnalyzeOutcome.failure "boom")).2 0 ⟨("hello").toList, none⟩ rfl).1⟩

/-! ### C7 -/

theorem sortByDesc_head_pickFirstMax {α β : Type} [LinearOrder β] (key : α → β)
    (l : List α) : (sortByDesc key l).head? = pickFirstMax key l := by
  induction l with
  | nil => rfl
  | cons x xs ih =>
    show (insertByDesc key x (sortByDesc key xs)).head? = pickFirstMax key (x :: xs)
    rcases hs : sortByDesc key xs with _ | ⟨y, t⟩ <;> rw [hs] at ih
    · simp only [pickFirstMax]
      rw [← ih]
      rfl
    · simp only [pickFirstMax]
      rw [← ih]
      by_cases hk : key y ≤ key x
      · rw [insertByDesc, if_pos hk]
        simp [not_lt.2 hk]
      · rw [insertByDesc, if_neg hk]
        simp [not_le.1 hk]

theorem bestSnippet_eq_spec (kws : List (List Char)) (maxLen : Nat)
    (src : RetrievedDoc) :
    bestSnippet kws maxLen src = bestSnippetSpec kws maxLen src := by
  unfold bestSnippet bestSnippetSpec
  by_cases hc : src.content = []
  · simp [hc]
  · simp only [if_neg hc]
    rw [sortByDesc_head_pickFirstMax]

/-- C7 (counterexample): a candidate with non-empty content and an
extractable sentence — which simply matches none of the claim's top
keywords — contributes no snippet, so the output can be shorter than "one
snippet per candidate with non-empty content". -/
theorem C7_counterexample :
    extract_evidence_snippets snippetClaim [unrelatedDoc] 200 = [] ∧
    unrelatedDoc.content ≠ [] ∧
    (extract_sentences unrelatedDoc.content).length = 1 := by
  exact ⟨by decide, by decide, by decide⟩

/-- C7 (amended): `extract_evidence_snippets` returns at most one snippet
per candidate, in candidate order, and per candidate it returns exactly the
spec's choice — the sentence with the highest keyword-match count against
the claim's top-3 keywords (ties broken by earliest position), truncated to
`max_len` characters with an ellipsis appended when truncated — for every
candidate that has non-empty content *and* at least one sentence matching
at least one keyword; candidates with empty content or with no matching
sentence produce no snippet. -/
theorem C7_amended_snippets (claim : List Char) (sources : List RetrievedDoc)
    (maxLen : Nat) :
    extract_evidence_snippets claim sources maxLen = snippetSpec claim sources maxLen ∧
    (extract_evidence_snippets claim sources maxLen).length ≤ sources.length := by
  constructor
  · unfold extract_evidence_snippets snippetSpec
    have hf : bestSnippet (extract_keywords claim 3) maxLen =
        bestSnippetSpec (extract_keywords claim 3) maxLen :=
      funext (bestSnippet_eq_spec (extract_keywords claim 3) maxLen)
    rw [hf]
  · exact List.length_filterMap_le _ _

/-! ### C9 -/

theorem toNat_ofNat_valid {n : Nat} (h : n.isValidChar) : (Char.ofNat n).toNat = n := by
  unfold Char.ofNat
  rw [dif_pos h]
  rfl

theorem lowerChar_idem (c : Char) : lowerChar (lowerChar c) = lowerChar c := by
  by_cases h : 65 ≤ c.toNat ∧ c.toNat ≤ 90
  · have hv : ((c.toNat + 32) : Nat).isValidChar := Or.inl (by omega)
    have ht : (Char.ofNat (c.toNat + 32)).toNat = c.toNat + 32 := toNat_ofNat_valid hv
    unfold lowerChar
    rw [if_pos h, if_neg (by rw [ht]; omega)]
  · unfold lowerChar
    rw [if_neg h, if_neg h]

theorem keptCh_ne (c : Char) (hk : keptCh c = true) :
    c ≠ '<' ∧ c ≠ '&' ∧ c ≠ '/' ∧ c ≠ '@' := by
  refine ⟨?_, ?_, ?_, ?_⟩ <;> (intro hc; subst hc; exact absurd hk (by decide))

theorem keptCh_space (c : Char) (hk : keptCh c = true) (hs : isSpaceCh c = true) :
    c = ' ' := by
  simp only [isSpaceCh, Bool.or_eq_true, beq_iff_eq] at hs
  rcases hs with ((((rfl | rfl) | rfl) | rfl) | rfl) | rfl
  · rfl
  all_goals exact absurd hk (by decide)

theorem punctToSpace_of_kept (c : Char) (hk : keptCh c = true) : punctToSpace c = c := by
  have hcond : (isWordCh c || isSpaceCh c || isKeptPunct c) = true := by
    simp only [keptCh, Bool.or_eq_true, beq_iff_eq] at hk
    simp only [Bool.or_eq_true]
    rcases hk with (h | h) | h
    · exact Or.inl (Or.inl h)
    · subst h; exact Or.inl (Or.inr (by decide))
    · exact Or.inr h
  unfold punctToSpace
  rw [if_pos hcond]

theorem map_id_of {α : Type} (f : α → α) (l : List α) (h : ∀ c ∈ l, f c = c) :
    l.map f = l := by
  induction l with
  | nil => rfl
  | cons c cs ih =>
    simp only [List.map_cons, h c (List.mem_cons_self c cs)]
    rw [ih (fun d hd => h d (List.mem_cons_of_mem c hd))]

theorem head?_dropWhile {α : Type} (p : α → Bool) (l : List α) (c : α)
    (h : (l.dropWhile p).head? = some c) : p c = false := by
  induction l with
  | nil => simp at h
  | cons a as ih =>
    rw [List.dropWhile_cons] at h
    by_cases hp : p a = true
    · rw [if_pos hp] at h
      exact ih h
    · rw [if_neg hp] at h
      simp only [List.head?_cons, Option.some.injEq] at h
      subst h
      simpa using hp

theorem dropWhile_eq_self_of_head {α : Type} (p : α → Bool) (l : List α)
    (h : ∀ c, l.head? = some c → p c = false) : l.dropWhile p = l := by
  cases l with
  | nil => rfl
  | cons a as =>
    rw [List.dropWhile_cons, if_neg]
    rw [h a rfl]
    simp

theorem noTwoSpaces_tail (a : Char) (r : List Char)
    (h : noTwoSpaces (a :: r) = true) : noTwoSpaces r = true := by
  cases r with
  | nil => rfl
  | cons b t =>
    simp only [noTwoSpaces, Bool.and_eq_true] at h
    exact h.2

theorem noTwoSpaces_cons_nonspace (a : Char) (r : List Char)
    (ha : isSpaceCh a = false) (hr : noTwoSpaces r = true) :
    noTwoSpaces (a :: r) = true := by
  cases r with
  | nil => rfl
  | cons b t =>
    simp only [noTwoSpaces, Bool.and_eq_true, Bool.not_eq_true']
    exact ⟨by rw [ha]; rfl, hr⟩

theorem noTwoSpaces_cons_head_nonspace (a b : Char) (t : List Char)
    (hb : isSpaceCh b = false) (hr : noTwoSpaces (b :: t) = true) :
    noTwoSpaces (a :: b :: t) = true := by
  simp only [noTwoSpaces, Bool.and_eq_true, Bool.not_eq_true']
  exact ⟨by rw [hb]; simp, hr⟩

theorem noTwoSpaces_dropWhile (p : Char → Bool) (l : List Char)
    (h : noTwoSpaces l = true) : noTwoSpaces (l.dropWhile p) = true := by
  induction l with
  | nil => rfl
  | cons a as ih =>
    rw [List.dropWhile_cons]
    by_cases hp : p a = true
    · rw [if_pos hp]
      exact ih (noTwoSpaces_tail a as h)
    · rw [if_neg hp]
      exact h

theorem collapseWs_id (l : List Char) (hnt : noTwoSpaces l = true)
    (hsp : ∀ c ∈ l, isSpaceCh c = true → c = ' ') : collapseWs l = l := by
  induction l with
  | nil => rfl
  | cons c cs ih =>
    cases cs with
    | nil =>
      simp only [collapseWs]
      by_cases hs : isSpaceCh c = true
      · rw [if_pos hs, hsp c (List.mem_cons_self c []) hs]
      · rw [if_neg hs]
    | cons d ds =>
      simp only [noTwoSpaces, Bool.and_eq_true, Bool.not_eq_true'] at hnt
      obtain ⟨hpair, hrest⟩ := hnt
      simp only [collapseWs]
      rw [if_neg (by rw [hpair]; simp)]
      have htail : collapseWs (d :: ds) = d :: ds :=
        ih hrest (fun e he hse => hsp e (List.mem_cons_of_mem c he) hse)
      rw [htail]
      by_cases hs : isSpaceCh c = true
      · rw [if_pos hs, hsp c (List.mem_cons_self c (d :: ds)) hs]
      · rw [if_neg hs]

theorem mem_collapseWs (l : List Char) (c : Char) (h : c ∈ collapseWs l) :
    c = ' ' ∨ (c ∈ l ∧ isSpaceCh c = false) := by
  induction l with
  | nil => simp [collapseWs] at h
  | cons a cs ih =>
    cases cs with
    | nil =>
      simp only [collapseWs] at h
      by_cases hs : isSpaceCh a = true
      · rw [if_pos hs] at h
        simp at h
        exact Or.inl h
      · rw [if_neg hs] at h
        simp at h
        subst h
        exact Or.inr ⟨List.mem_cons_self _ _, by simpa using hs⟩
    | cons d ds =>
      simp only [collapseWs] at h
      by_cases hp : (isSpaceCh a && isSpaceCh d) = true
      · rw [if_pos hp] at h
        rcases ih h with h1 | ⟨h2, h3⟩
        · exact Or.inl h1
        · exact Or.inr ⟨List.mem_cons_of_mem a h2, h3⟩
      · rw [if_neg hp] at h
        rcases List.mem_cons.1 h with h1 | h1
        · by_cases hs : isSpaceCh a = true
          · rw [if_pos hs] at h1
            exact Or.inl h1
          · rw [if_neg hs] at h1
            subst h1
            exact Or.inr ⟨List.mem_cons_self _ _, by simpa using hs⟩
        · rcases ih h1 with h2 | ⟨h3, h4⟩
          · exact Or.inl h2
          · exact Or.inr ⟨List.mem_cons_of_mem a h3, h4⟩

theorem collapseWs_head (d : Char) (cs : List Char) (hd : isSpaceCh d = false) :
    ∃ t, collapseWs (d :: cs) = d :: t := by
  cases cs with
  | nil =>
    refine ⟨[], ?_⟩
    simp only [collapseWs]
    rw [if_neg (by simp [hd])]
  | cons e es =>
    refine ⟨collapseWs (e :: es), ?_⟩
    simp only [collapseWs]
    rw [if_neg (by simp [hd]), if_neg (by simp [hd])]

theorem noTwoSpaces_collapseWs (l : List Char) :
    noTwoSpaces (collapseWs l) = true := by
  induction l with
  | nil => rfl
  | cons c cs ih =>
    cases cs with
    | nil =>
      simp only [collapseWs]
      by_cases hs : isSpaceCh c = true
      · rw [if_pos hs]; rfl
      · rw [if_neg hs]; rfl
    | cons d ds =>
      simp only [collapseWs]
      by_cases hp : (isSpaceCh c && isSpaceCh d) = true
      · rw [if_pos hp]
        exact ih
      · rw [if_neg hp]
        by_cases hdsp : isSpaceCh d = true
        · have hc : isSpaceCh c = false := by
            cases hcv : isSpaceCh c
            · rfl
            · exact absurd (by simp [hcv, hdsp] : (isSpaceCh c && isSpaceCh d) = true) hp
          rw [if_neg (by simp [hc])]
          exact noTwoSpaces_cons_nonspace c _ hc ih
        · have hd : isSpaceCh d = false := by simpa using hdsp
          obtain ⟨t, ht⟩ := collapseWs_head d ds hd
          rw [ht]
          exact noTwoSpaces_cons_head_nonspace _ d t hd (ht ▸ ih)

theorem dropTrailing_cons_eq (c : Char) (cs : List Char) :
    dropTrailingSpaces (c :: cs) =
      match dropTrailingSpaces cs with
      | [] => if isSpaceCh c then [] else [c]
      | r => c :: r := by
  simp only [dropTrailingSpaces]

theorem dropTrailing_idem (l : List Char) :
    dropTrailingSpaces (dropTrailingSpaces l) = dropTrailingSpaces l := by
  induction l with
  | nil => rfl
  | cons c cs ih =>
    rcases hd : dropTrailingSpaces cs with _ | ⟨r, rs⟩
    · have h1 : dropTrailingSpaces (c :: cs) = if isSpaceCh c then [] else [c] := by
        rw [dropTrailing_cons_eq c cs, hd]
      by_cases hs : isSpaceCh c = true
      · rw [h1, if_pos hs]
        rfl
      · rw [h1, if_neg hs]
        rw [dropTrailing_cons_eq c []]
        rw [show dropTrailingSpaces ([] : List Char) = [] from rfl]
        rw [if_neg hs]
    · have h1 : dropTrailingSpaces (c :: cs) = c :: r :: rs := by
        rw [dropTrailing_cons_eq c cs, hd]
      rw [hd] at ih
      rw [h1, dropTrailing_cons_eq c (r :: rs), ih]

theorem dropTrailing_head (l : List Char) :
    dropTrailingSpaces l = [] ∨ (dropTrailingSpaces l).head? = l.head? := by
  cases l with
  | nil => exact Or.inl rfl
  | cons c cs =>
    rcases hd : dropTrailingSpaces cs with _ | ⟨r, rs⟩
    · have h1 : dropTrailingSpaces (c :: cs) = if isSpaceCh c then [] else [c] := by
        rw [dropTrailing_cons_eq c cs, hd]
      by_cases hs : isSpaceCh c = true
      · rw [h1, if_pos hs]
        exact Or.inl rfl
      · rw [h1, if_neg hs]
        exact Or.inr rfl
    · have h1 : dropTrailingSpaces (c :: cs) = c :: r :: rs := by
        rw [dropTrailing_cons_eq c cs, hd]
      rw [h1]
      exact Or.inr rfl

theorem mem_dropTrailing (l : List Char) (c : Char)
    (h : c ∈ dropTrailingSpaces l) : c ∈ l := by
  induction l with
  | nil => simp [dropTrailingSpaces] at h
  | cons a cs ih =>
    rcases hd : dropTrailingSpaces cs with _ | ⟨r, rs⟩
    · have h1 : dropTrailingSpaces (a :: cs) = if isSpaceCh a then [] else [a] := by
        rw [dropTrailing_cons_eq a cs, hd]
      rw [h1] at h
      by_cases hs : isSpaceCh a = true
      · rw [if_pos hs] at h
        simp at h
      · rw [if_neg hs] at h
        simp at h
        subst h
        exact List.mem_cons_self _ _
    · have h1 : dropTrailingSpaces (a :: cs) = a :: r :: rs := by
        rw [dropTrailing_cons_eq a cs, hd]
      rw [h1] at h
      rcases List.mem_cons.1 h with h2 | h2
      · subst h2
        exact List.mem_cons_self _ _
      · exact List.mem_cons_of_mem a (ih (hd ▸ h2))

theorem noTwoSpaces_dropTrailing (l : List Char)
    (h : noTwoSpaces l = true) : noTwoSpaces (dropTrailingSpaces l) = true := by
  induction l with
  | nil => rfl
  | cons c cs ih =>
    rcases hd : dropTrailingSpaces cs with _ | ⟨r, rs⟩
    · have h1 : dropTrailingSpaces (c :: cs) = if isSpaceCh c then [] else [c] := by
        rw [dropTrailing_cons_eq c cs, hd]
      rw [h1]
      by_cases hs : isSpaceCh c = true
      · rw [if_pos hs]; rfl
      · rw [if_neg hs]; rfl
    · have h1 : dropTrailingSpaces (c :: cs) = c :: r :: rs := by
        rw [dropTrailing_cons_eq c cs, hd]
      rw [h1]
      have htail : noTwoSpaces (r :: rs) = true := by
        rw [← hd]
        exact ih (noTwoSpaces_tail c cs h)
      cases cs with
      | nil => simp [dropTrailingSpaces] at hd
      | cons c2 t =>
        have hr : r = c2 := by
          rcases dropTrailing_head (c2 :: t) with h2 | h2
          · rw [h2] at hd
            exact absurd hd (by simp)
          · rw [hd] at h2
            simpa using h2
        subst hr
        simp only [noTwoSpaces, Bool.and_eq_true] at h ⊢
        exact ⟨h.1, htail⟩

theorem stripTagsAux_id (l : List Char) (h : ∀ c ∈ l, c ≠ '<') :
    stripTagsAux false l = l := by
  induction l with
  | nil => rfl
  | cons c cs ih =>
    have hc : (c == '<') = false :=
      beq_eq_false_iff_ne.2 (h c (List.mem_cons_self c cs))
    simp only [stripTagsAux]
    rw [if_neg (by simp [hc]), ih (fun d hd => h d (List.mem_cons_of_mem c hd))]

set_option maxHeartbeats 1000000 in
theorem decodeEntities_id (l : List Char) (h : ∀ c ∈ l, c ≠ '&') :
    decodeEntities l = l := by
  induction l with
  | nil => rfl
  | cons c cs ih =>
    have hc : c ≠ '&' := h c (List.mem_cons_self c cs)
    rw [decodeEntities.eq_def]
    split
    · rename_i heq
      exact absurd heq (by simp)
    · rename_i heq
      rw [List.cons.injEq] at heq
      exact absurd heq.1 hc
    · rename_i heq
      rw [List.cons.injEq] at heq
      exact absurd heq.1 hc
    · rename_i heq
      rw [List.cons.injEq] at heq
      exact absurd heq.1 hc
    · rename_i heq
      rw [List.cons.injEq] at heq
      exact absurd heq.1 hc
    · rename_i heq
      rw [List.cons.injEq] at heq
      exact absurd heq.1 hc
    · rename_i c' cs' heq
      rw [List.cons.injEq] at heq
      obtain ⟨h1, h2⟩ := heq
      subst h1
      subst h2
      rw [ih (fun d hd => h d (List.mem_cons_of_mem c hd))]

theorem dropLit_mem (pat l r : List Char) (h : dropLit pat l = some r) :
    ∀ c ∈ pat, c ∈ l := by
  induction pat generalizing l with
  | nil =>
    intro c hc
    simp at hc
  | cons p ps ih =>
    cases l with
    | nil => simp [dropLit] at h
    | cons a as =>
      simp only [dropLit] at h
      by_cases hpa : (p == a) = true
      · rw [if_pos hpa] at h
        intro c hc
        rcases List.mem_cons.1 hc with rfl | hcs
        · rw [beq_iff_eq.1 hpa]
          exact List.mem_cons_self a as
        · exact List.mem_cons_of_mem a (ih as h c hcs)
      · rw [if_neg hpa] at h
        simp at h

theorem dropLit_suffix (pat l r : List Char) (h : dropLit pat l = some r) :
    r <:+ l := by
  induction pat generalizing l with
  | nil =>
    simp only [dropLit, Option.some.injEq] at h
    subst h
    exact List.suffix_refl _
  | cons p ps ih =>
    cases l with
    | nil => simp [dropLit] at h
    | cons a as =>
      simp only [dropLit] at h
      by_cases hpa : (p == a) = true
      · rw [if_pos hpa] at h
        exact (ih as h).trans (List.suffix_cons a as)
      · rw [if_neg hpa] at h
        simp at h

theorem orElse_eq_some {α : Type} (a : Option α) (f : Unit → Option α) (x : α)
    (h : a.orElse f = some x) : a = some x ∨ f () = some x := by
  cases a
  · exact Or.inr h
  · exact Or.inl h

theorem urlMatch_none (l : List Char) (h : ∀ c ∈ l, c ≠ '/') :
    urlMatch l = none := by
  unfold urlMatch
  have h1 : dropLit ("https://".toList) l = none := by
    rcases hd : dropLit ("https://".toList) l with _ | r1
    · rfl
    · exact absurd (dropLit_mem _ l r1 hd '/' (by decide)) (fun hm => h '/' hm rfl)
  have h2 : dropLit ("http://".toList) l = none := by
    rcases hd : dropLit ("http://".toList) l with _ | r2
    · rfl
    · exact absurd (dropLit_mem _ l r2 hd '/' (by decide)) (fun hm => h '/' hm rfl)
  rw [h1, h2]
  rfl

theorem urlMatch_mem (l r : List Char) (h : urlMatch l = some r) :
    ∀ c ∈ r, c ∈ l := by
  unfold urlMatch at h
  rw [Option.bind_eq_some] at h
  obtain ⟨rest, hrest, hr⟩ := h
  have hsuf : rest <:+ l := by
    rcases orElse_eq_some _ _ _ hrest with h1 | h1
    · exact dropLit_suffix _ l rest h1
    · exact dropLit_suffix _ l rest h1
  by_cases ht : (rest.takeWhile isUrlCh) = []
  · rw [if_pos ht] at hr
    simp at hr
  · rw [if_neg ht] at hr
    simp only [Option.some.injEq] at hr
    subst hr
    intro c hc
    exact hsuf.subset (List.dropWhile_subset _ hc)

theorem removeUrlsAux_id (f : Nat) (l : List Char) (h : ∀ c ∈ l, c ≠ '/') :
    removeUrlsAux f l = l := by
  induction f generalizing l with
  | zero => rfl
  | succ f ih =>
    cases l with
    | nil => rfl
    | cons c cs =>
      simp only [removeUrlsAux, urlMatch_none (c :: cs) h]
      rw [ih cs (fun d hd => h d (List.mem_cons_of_mem c hd))]

theorem mem_removeUrlsAux (f : Nat) (l : List Char) (c : Char)
    (h : c ∈ removeUrlsAux f l) : c ∈ l := by
  induction f generalizing l with
  | zero => exact h
  | succ f ih =>
    cases l with
    | nil => simpa [removeUrlsAux] using h
    | cons a cs =>
      rcases hm : urlMatch (a :: cs) with _ | rest <;>
        simp only [removeUrlsAux, hm] at h
      · rcases List.mem_cons.1 h with rfl | h2
        · exact List.mem_cons_self _ _
        · exact List.mem_cons_of_mem a (ih cs h2)
      · exact urlMatch_mem (a :: cs) rest hm c (ih rest h)

theorem hasAtNotLast_false (l : List Char) (h : ∀ c ∈ l, c ≠ '@') :
    hasAtNotLast l = false := by
  induction l with
  | nil => rfl
  | cons c cs ih =>
    cases cs with
    | nil => rfl
    | cons d ds =>
      simp only [hasAtNotLast, Bool.or_eq_false_iff]
      exact ⟨beq_eq_false_iff_ne.2 (h c (List.mem_cons_self _ _)),
        ih (fun e he => h e (List.mem_cons_of_mem c he))⟩

theorem isEmailTok_false (tok : List Char) (h : ∀ c ∈ tok, c ≠ '@') :
    isEmailTok tok = false := by
  cases tok with
  | nil => rfl
  | cons c rest =>
    simp only [isEmailTok]
    exact hasAtNotLast_false rest (fun e he => h e (List.mem_cons_of_mem c he))

theorem removeEmailsAux_id (f : Nat) (l : List Char) (h : ∀ c ∈ l, c ≠ '@') :
    removeEmailsAux f l = l := by
  induction f generalizing l with
  | zero => rfl
  | succ f ih =>
    cases l with
    | nil => rfl
    | cons c cs =>
      simp only [removeEmailsAux]
      by_cases hs : isSpaceCh c = true
      · rw [if_pos hs, ih cs (fun d hd => h d (List.mem_cons_of_mem c hd))]
      · rw [if_neg hs]
        have htok : isEmailTok ((c :: cs).takeWhile (fun d => !isSpaceCh d)) = false :=
          isEmailTok_false _ (fun e he => h e (List.takeWhile_subset _ he))
        rw [if_neg (by rw [htok]; simp)]
        rw [ih ((c :: cs).dropWhile (fun d => !isSpaceCh d))
          (fun e he => h e (List.dropWhile_subset _ he))]
        exact List.takeWhile_append_dropWhile _ _

theorem mem_removeEmailsAux (f : Nat) (l : List Char) (c : Char)
    (h : c ∈ removeEmailsAux f l) : c ∈ l := by
  induction f generalizing l with
  | zero => exact h
  | succ f ih =>
    cases l with
    | nil => simpa [removeEmailsAux] using h
    | cons a cs =>
      simp only [removeEmailsAux] at h
      by_cases hs : isSpaceCh a = true
      · rw [if_pos hs] at h
        rcases List.mem_cons.1 h with rfl | h2
        · exact List.mem_cons_self _ _
        · exact List.mem_cons_of_mem a (ih cs h2)
      · rw [if_neg hs] at h
        rcases List.mem_append.1 h with h2 | h2
        · by_cases ht : isEmailTok ((a :: cs).takeWhile (fun d => !isSpaceCh d)) = true
          · rw [if_pos ht] at h2
            simp at h2
          · rw [if_neg ht] at h2
            exact List.takeWhile_subset _ h2
        · exact List.dropWhile_subset _ (ih _ h2)

theorem stripChars_id (l : List Char) (h1 : l.dropWhile isSpaceCh = l)
    (h2 : dropTrailingSpaces l = l) : stripChars l = l := by
  unfold stripChars
  rw [h1, h2]

theorem clean_html_of_clean (y : List Char)
    (hP1 : ∀ c ∈ y, keptCh c = true) (hnt : noTwoSpaces y = true)
    (hdw : y.dropWhile isSpaceCh = y) (hdt : dropTrailingSpaces y = y) :
    clean_html y = y := by
  by_cases hy : y = []
  · subst hy
    rfl
  · unfold clean_html
    rw [if_neg hy,
      stripTagsAux_id y (fun c hc => (keptCh_ne c (hP1 c hc)).1),
      decodeEntities_id y (fun c hc => (keptCh_ne c (hP1 c hc)).2.1),
      collapseWs_id y hnt (fun c hc hs => keptCh_space c (hP1 c hc) hs)]
    exact stripChars_id y hdw hdt

theorem clean_text_of_isClean (y : List Char) (h : IsCleanText y) :
    clean_text y = y := by
  obtain ⟨hP1, hnt, hdw, hdt⟩ := h
  by_cases hy : y = []
  · subst hy
    rfl
  · simp only [clean_text, if_neg hy]
    rw [clean_html_of_clean y (fun c hc => (hP1 c hc).1) hnt hdw hdt,
      map_id_of lowerChar y (fun c hc => (hP1 c hc).2),
      show removeUrls y = y from
        removeUrlsAux_id y.length y (fun c hc => (keptCh_ne c (hP1 c hc).1).2.2.1),
      show removeEmails y = y from
        removeEmailsAux_id y.length y (fun c hc => (keptCh_ne c (hP1 c hc).1).2.2.2),
      map_id_of punctToSpace y (fun c hc => punctToSpace_of_kept c (hP1 c hc).1),
      collapseWs_id y hnt (fun c hc hs => keptCh_space c (hP1 c hc).1 hs)]
    exact stripChars_id y hdw hdt

theorem isClean_strip_collapse (t4 : List Char)
    (hlow : ∀ c ∈ t4, lowerChar c = c) :
    IsCleanText (stripChars (collapseWs (t4.map punctToSpace))) := by
  have hnt6 : noTwoSpaces (collapseWs (t4.map punctToSpace)) = true :=
    noTwoSpaces_collapseWs (t4.map punctToSpace)
  refine ⟨?_, ?_, ?_, ?_⟩
  · intro c hc
    have hc6 : c ∈ collapseWs (t4.map punctToSpace) := by
      unfold stripChars at hc
      exact List.dropWhile_subset _ (mem_dropTrailing _ _ hc)
    rcases mem_collapseWs _ c hc6 with rfl | ⟨h5, hnsp⟩
    · exact ⟨by decide, by decide⟩
    · obtain ⟨d, hd4, hdc⟩ := List.mem_map.1 h5
      by_cases hcl : (isWordCh d || isSpaceCh d || isKeptPunct d) = true
      · have hpd : punctToSpace d = d := by
          unfold punctToSpace
          rw [if_pos hcl]
        rw [hpd] at hdc
        subst hdc
        constructor
        · simp only [keptCh, Bool.or_eq_true, beq_iff_eq]
          simp only [Bool.or_eq_true] at hcl
          rcases hcl with (hw | hsd) | hkp
          · exact Or.inl (Or.inl hw)
          · exact absurd hsd (by rw [hnsp]; simp)
          · exact Or.inr hkp
        · exact hlow d hd4
      · have hpd : punctToSpace d = ' ' := by
          unfold punctToSpace
          rw [if_neg hcl]
        rw [hpd] at hdc
        rw [← hdc] at hnsp
        exact absurd hnsp (by decide)
  · unfold stripChars
    exact noTwoSpaces_dropTrailing _ (noTwoSpaces_dropWhile _ _ hnt6)
  · unfold stripChars
    rcases dropTrailing_head ((collapseWs (t4.map punctToSpace)).dropWhile isSpaceCh)
      with h0 | h0
    · rw [h0]
      rfl
    · apply dropWhile_eq_self_of_head
      intro c hch
      rw [h0] at hch
      exact head?_dropWhile isSpaceCh _ c hch
  · unfold stripChars
    exact dropTrailing_idem _

theorem clean_text_isClean (x : List Char) : IsCleanText (clean_text x) := by
  by_cases hx : x = []
  · subst hx
    refine ⟨?_, rfl, rfl, rfl⟩
    intro c hc
    simp [clean_text] at hc
  · simp only [clean_text, if_neg hx]
    apply isClean_strip_collapse
    intro c hc
    have h2 : c ∈ (clean_html x).map lowerChar :=
      mem_removeUrlsAux _ _ c (mem_removeEmailsAux _ _ c hc)
    obtain ⟨e, -, hce⟩ := List.mem_map.1 h2
    rw [← hce]
    exact lowerChar_idem e

/-- C9: `clean_text` is idempotent — cleaning an already-cleaned text
changes nothing, for every input string. -/
theorem C9_clean_idempotent (x : List Char) :
    clean_text (clean_text x) = clean_text x :=
  clean_text_of_isClean (clean_text x) (clean_text_isClean x)

end Misinfo
